import Mathlib

/-!
# Verification of the Kids' Task Checklist reconciliation core

Shallow embedding of `src/Streamlit-to-do-list.py`:

* Reward Parser — the two `df['Value'].apply` lambdas in `load_data`
  (lines 95–96);
* Task Catalog Loader — `load_data` (lines 86–100);
* Completion Store / Cadence Reset Engine — `load_state` (lines 39–74);
* cadence grouping of the displayed lists (lines 152–154);
* task keys (line 124) and the sidebar counts (lines 186–190).

Raw CSV cell values, task names and task-state keys are modelled as
`List Char`.  Money amounts are modelled as `ℚ` (the Python code uses
`float`, but every value the claims exercise is an exact small decimal).
A Python exception escaping an expression is modelled as `none`
(respectively `Except.error`) at the nearest enclosing handler.
-/

namespace KidsTodo

/-! ## Generic string machinery -/

/-- Does `k` start with `p`?  Models Python `str.startswith`, used as
`task_id.startswith('Daily_')` in `load_state`. -/
def hasPfx : List Char → List Char → Bool
  | [], _ => true
  | _ :: _, [] => false
  | p :: ps, k :: ks => p == k && hasPfx ps ks

/-- Does `hay` contain `n` as a contiguous substring?  Models the Python
expression `n in hay` on strings. -/
def containsSub (n : List Char) : List Char → Bool
  | [] => n.isEmpty
  | c :: t => hasPfx n (c :: t) || containsSub n t

/-- ASCII decimal digit test. -/
def isDig (c : Char) : Bool := '0' ≤ c && c ≤ '9'

/-- Numeric value of a decimal digit character. -/
def digitVal (c : Char) : Nat := c.toNat - '0'.toNat

/-- Value of a digit string, most significant digit first. -/
def natOfDigits (l : List Char) : Nat := l.foldl (fun a c => 10 * a + digitVal c) 0

/-! ## Reward Parser (`load_data`, lines 95–96) -/

/-- The three currency glyphs recognised on line 95. -/
def currencySyms : List Char := ['£', '$', '€']

/-- The characters removed by the substitution on line 95. -/
def stripChars : List Char := ['£', '$', '€', ',']

/-- Models the substitution on line 95: delete every currency
glyph and every comma from the string. -/
def stripSyms (s : List Char) : List Char := s.filter (fun c => !(stripChars.contains c))

/-- Models Python `float(str)` on an unsigned plain decimal literal:
`digits`, `digits.digits`, `digits.` or `.digits`; the exact value of
`ip.fp` is the rational `(ip * 10^|fp| + fp) / 10^|fp|`, built here with
`mkRat` over the concatenated digit string.  Scientific notation,
`inf`/`nan`, digit-group underscores and surrounding whitespace are
outside the modelled fragment (no claim exercises them); on such inputs
this returns `none` where Python may differ.  Values are modelled as
exact rationals rather than IEEE doubles: every value the claims
exercise is a short decimal that a double also represents faithfully
enough for the spec's comparisons. -/
def pyFloatCore (r : List Char) : Option ℚ :=
  let ip := r.takeWhile isDig
  let rest := r.dropWhile isDig
  if rest.isEmpty then
    if ip.isEmpty then none else some (mkRat (natOfDigits ip) 1)
  else if rest.head? == some '.' then
    if rest.tail.all isDig && !(ip.isEmpty && rest.tail.isEmpty) then
      some (mkRat (natOfDigits (ip ++ rest.tail)) (10 ^ rest.tail.length))
    else none
  else none

/-- Models Python `float(str)`: optional single leading sign, then a plain
decimal literal.  `none` models a `ValueError`. -/
def pyFloat? (s : List Char) : Option ℚ :=
  match s with
  | [] => none
  | c :: t =>
    if c == '-' then (pyFloatCore t).map (fun q => -q)
    else if c == '+' then pyFloatCore t
    else pyFloatCore (c :: t)

/-- The literal marker checked on line 96. -/
def mustDoStr : List Char := ['M', 'u', 's', 't', ' ', 'd', 'o']

/-- Line 96: `'Must do' in str(x)`. -/
def isMustDoOf (s : List Char) : Bool := containsSub mustDoStr s

/-- Line 95: `float(re.sub(r'[£$€,]', '', str(x))) if str(x)[0] in '£$€' else 0.0`.
`none` models an exception escaping the lambda: a `ValueError` from
`float`, or the `IndexError` that `str(x)[0]` raises on the empty
string. -/
def rewardOf (s : List Char) : Option ℚ :=
  match s with
  | [] => none
  | c :: rest =>
    if currencySyms.contains c then pyFloat? (stripSyms (c :: rest)) else some 0

/-! ## Task Catalog Loader (`load_data`, lines 86–100) -/

/-- One data row of the CSV source.  The header check on lines 89–94 is
satisfied by construction: a `Row` carries exactly the three required
named fields. -/
structure Row where
  task : List Char
  cadence : List Char
  value : List Char
deriving DecidableEq

/-- A catalog row after `load_data` has added the derived `Reward` and
`IsMustDo` columns. -/
structure TaskRec where
  task : List Char
  cadence : List Char
  value : List Char
  reward : ℚ
  isMustDo : Bool
deriving DecidableEq

/-- Lines 95–100: the `Reward` column is computed row by row inside the
single `try` block; the first exception raised by the lambda aborts the
whole `apply`, is caught on line 98, and `load_data` returns `None`.
Hence the load succeeds only if every row's value parses. -/
def loadData (rows : List Row) : Option (List TaskRec) :=
  match rows with
  | [] => some []
  | r :: rest =>
    match rewardOf r.value, loadData rest with
    | some q, some ts =>
      some ({ task := r.task, cadence := r.cadence, value := r.value,
              reward := q, isMustDo := isMustDoOf r.value } :: ts)
    | _, _ => none

/-! ## Calendar arithmetic (Python `datetime`) -/

/-- A timezone-naive `datetime` value. -/
structure DT where
  year : Nat
  month : Nat
  day : Nat
  hour : Nat
  minute : Nat
  second : Nat

/-- Gregorian leap year. -/
def isLeap (y : Nat) : Bool := (y % 4 == 0 && y % 100 != 0) || y % 400 == 0

/-- Length of month `m` (1–12) in year `y`. -/
def daysInMonth (y m : Nat) : Nat :=
  if m == 2 then (if isLeap y then 29 else 28)
  else if m == 4 || m == 6 || m == 9 || m == 11 then 30
  else 31

/-- Day of the year, 1-based. -/
def dayOfYear (y m d : Nat) : Nat :=
  (List.range (m - 1)).foldl (fun acc i => acc + daysInMonth y (i + 1)) 0 + d

/-- Rata-die day number: day 1 is 0001-01-01 (proleptic Gregorian), a
Monday. -/
def rataDie (y m d : Nat) : Nat :=
  365 * (y - 1) + (y - 1) / 4 - (y - 1) / 100 + (y - 1) / 400 + dayOfYear y m d

/-- ISO weekday: Monday = 1 … Sunday = 7. -/
def isoWeekday (y m d : Nat) : Nat := (rataDie y m d - 1) % 7 + 1

/-- Weekday shift of 1 January, used to count ISO weeks in a year. -/
def isoPShift (y : Nat) : Nat := (y + y / 4 - y / 100 + y / 400) % 7

/-- Number of ISO weeks (52 or 53) in ISO year `y`. -/
def weeksInIsoYear (y : Nat) : Nat :=
  52 + (if isoPShift y == 4 || isoPShift (y - 1) == 3 then 1 else 0)

/-- ISO-8601 week number; models Python `date.isocalendar()[1]`. -/
def isoWeekNumber (y m d : Nat) : Nat :=
  let w := (10 + dayOfYear y m d - isoWeekday y m d) / 7
  if w == 0 then weeksInIsoYear (y - 1)
  else if w > weeksInIsoYear y then 1 else w

/-- `isocalendar()[1]` of a datetime (its date part). -/
def isoWeekOf (t : DT) : Nat := isoWeekNumber t.year t.month t.day

/-- `a.date() < b.date()`: lexicographic comparison of the calendar
dates, as Python compares `datetime.date` values. -/
def dateLt (a b : DT) : Bool :=
  decide (a.year < b.year ∨ (a.year = b.year ∧
    (a.month < b.month ∨ (a.month = b.month ∧ a.day < b.day))))

/-! ## Completion Store and Cadence Reset Engine (`load_state`, lines 39–74) -/

/-- The persisted `task_states` mapping: task key → completion flag, in
insertion order (Python dicts preserve insertion order, and the reset
loops only overwrite values in place). -/
abbrev TaskStates : Type := List (List Char × Bool)

/-- Key prefix `'Daily_'` checked on line 56. -/
def dailyPfx : List Char := ['D', 'a', 'i', 'l', 'y', '_']

/-- Key prefix `'Weekly_'` checked on line 64. -/
def weeklyPfx : List Char := ['W', 'e', 'e', 'k', 'l', 'y', '_']

/-- Key prefix `'Monthly_'` checked on line 70. -/
def monthlyPfx : List Char := ['M', 'o', 'n', 't', 'h', 'l', 'y', '_']

/-- One reset loop: set to `False` the value of every record whose key
starts with `p`, leaving keys and order untouched. -/
def clearPfx (p : List Char) (st : TaskStates) : TaskStates :=
  st.map (fun e => if hasPfx p e.1 then (e.1, false) else e)

/-- A reset loop guarded by its condition. -/
def applyClear (cond : Bool) (p : List Char) (st : TaskStates) : TaskStates :=
  if cond then clearPfx p st else st

/-- Lines 49–71: the three reset passes, in program order —
daily (`now.date() > last.date()`), weekly (ISO week numbers differ),
monthly (month or year differs). -/
def reconcile (last now : DT) (st : TaskStates) : TaskStates :=
  applyClear ((now.month != last.month) || (now.year != last.year)) monthlyPfx
    (applyClear (isoWeekOf now != isoWeekOf last) weeklyPfx
      (applyClear (dateLt last now) dailyPfx st))

/-- The content `load_state` finds behind `STATE_FILE`, after
`json.load` and the `fromisoformat` parse: the mapping plus the optional
last-update stamp. -/
structure Persisted where
  lastUpdate : Option DT
  taskStates : TaskStates

/-- The state of the backing store: the file is missing, or its content
makes `json.load` (or the subsequent field access) raise, or it parses
into a `Persisted` document. -/
inductive Stored
  | missing
  | malformed
  | valid (p : Persisted)

/-- `load_state` (lines 39–74).  Missing file → `{}` (line 74).  A file
whose content `json.load` cannot parse → the exception propagates to the
caller: there is no handler anywhere in `load_state`
(`Except.error ()`).  Otherwise the reset passes run when `last_update`
is present. -/
def loadState (file : Stored) (now : DT) : Except Unit TaskStates :=
  match file with
  | .missing => .ok []
  | .malformed => .error ()
  | .valid p =>
    match p.lastUpdate with
    | none => .ok p.taskStates
    | some last => .ok (reconcile last now p.taskStates)

/-! ## Display grouping (lines 152–154), keys (line 124), counts (186–190) -/

/-- Python `str.lower` restricted to ASCII letters (cadence values in the
claims are ASCII). -/
def lowerStr (s : List Char) : List Char := s.map Char.toLower

/-- Line 152: rows whose lower-cased cadence equals `'daily'`. -/
def dailyGroup (cat : List TaskRec) : List TaskRec :=
  cat.filter (fun t => lowerStr t.cadence == ['d', 'a', 'i', 'l', 'y'])

/-- Line 153: rows whose lower-cased cadence equals `'weekly'`. -/
def weeklyGroup (cat : List TaskRec) : List TaskRec :=
  cat.filter (fun t => lowerStr t.cadence == ['w', 'e', 'e', 'k', 'l', 'y'])

/-- Line 154: rows whose lower-cased cadence equals `'monthly'`. -/
def monthlyGroup (cat : List TaskRec) : List TaskRec :=
  cat.filter (fun t => lowerStr t.cadence == ['m', 'o', 'n', 't', 'h', 'l', 'y'])

/-- Line 124: `task_id = f"{row['Cadence']}_{row['Task']}"`. -/
def taskKey (t : TaskRec) : List Char := t.cadence ++ '_' :: t.task

/-- Line 125: `st.session_state.task_states.get(task_id, False)`. -/
def lookupKey (k : List Char) (st : TaskStates) : Option Bool :=
  match st with
  | [] => none
  | (k2, b) :: rest => if k2 == k then some b else lookupKey k rest

/-- Effective checked state of a key: stored flag, defaulting to
`False`. -/
def checkedState (k : List Char) (st : TaskStates) : Bool := (lookupKey k st).getD false

/-- Line 186: `sum(1 for value in task_states.values() if value)` — the
number of `True` flags in the whole persisted mapping. -/
def completedCount (st : TaskStates) : Nat := (st.filter (fun e => e.2)).length

/-- Line 187: `len(tasks_df)` — the number of catalog rows. -/
def totalCount (cat : List TaskRec) : Nat := cat.length

/-- The number of catalog rows whose own key is currently checked (what a
user sees ticked on screen). -/
def checkedCatalogCount (cat : List TaskRec) (st : TaskStates) : Nat :=
  (cat.filter (fun t => checkedState (taskKey t) st)).length

/-! ## Helper lemmas -/

theorem hasPfx_mem : ∀ (p k : List Char), hasPfx p k = true → ∀ c ∈ p, c ∈ k := by
  intro p
  induction p with
  | nil => intro k _ c hc; simp at hc
  | cons a as ih =>
    intro k h c hc
    cases k with
    | nil => simp [hasPfx] at h
    | cons b bs =>
        simp only [hasPfx, Bool.and_eq_true, beq_iff_eq] at h
        rcases List.mem_cons.mp hc with rfl | hc
        · exact h.1 ▸ List.mem_cons_self _ _
        · exact List.mem_cons_of_mem _ (ih bs h.2 c hc)

theorem containsSub_mem (n : List Char) :
    ∀ hay : List Char, containsSub n hay = true → ∀ c ∈ n, c ∈ hay := by
  intro hay
  induction hay with
  | nil =>
    intro h c hc
    simp only [containsSub, List.isEmpty_iff] at h
    subst h; simp at hc
  | cons a t ih =>
    intro h c hc
    rcases Bool.or_eq_true_iff.mp h with h1 | h2
    · exact hasPfx_mem n (a :: t) h1 c hc
    · exact List.mem_cons_of_mem _ (ih h2 c hc)

theorem mem_takeWhile (p : Char → Bool) :
    ∀ (l : List Char) (c : Char), c ∈ l.takeWhile p → p c = true := by
  intro l
  induction l with
  | nil => intro c hc; simp [List.takeWhile] at hc
  | cons a t ih =>
    intro c hc
    simp only [List.takeWhile] at hc
    cases hp : p a with
    | false => rw [hp] at hc; simp at hc
    | true =>
        rw [hp] at hc
        rcases List.mem_cons.mp hc with rfl | hc
        · exact hp
        · exact ih c hc

/-- The characters Python `float` can accept (in the modelled fragment). -/
def allowedChar (c : Char) : Bool := c == '+' || c == '-' || c == '.' || isDig c

theorem pyFloatCore_chars (r : List Char) (q : ℚ) (h : pyFloatCore r = some q) :
    ∀ c ∈ r, allowedChar c = true := by
  intro c hc
  have hsplit : r.takeWhile isDig ++ r.dropWhile isDig = r :=
    List.takeWhile_append_dropWhile isDig r
  rcases List.mem_append.mp (by rw [hsplit]; exact hc) with htk | hdr
  · simp [allowedChar, mem_takeWhile isDig r c htk]
  · simp only [pyFloatCore] at h
    cases hd : r.dropWhile isDig with
    | nil => rw [hd] at hdr; simp at hdr
    | cons a t =>
        rw [hd] at h hdr
        simp only [List.isEmpty_cons, List.head?_cons, List.tail_cons, if_false,
          Bool.false_eq_true] at h
        by_cases ha : a = '.'
        · subst ha
          simp only [beq_self_eq_true, if_true, beq_iff_eq] at h
          by_cases hg : (t.all isDig && !(List.isEmpty (r.takeWhile isDig) && t.isEmpty)) = true
          · rcases List.mem_cons.mp hdr with rfl | hct
            · simp [allowedChar]
            · have hall := (Bool.and_eq_true _ _).mp hg
              have := (List.all_eq_true.mp hall.1) c hct
              simp [allowedChar, this]
          · rw [if_neg hg] at h; cases h
        · have : (some a == some '.') = false := by
            simp only [beq_eq_false_iff_ne, ne_eq, Option.some.injEq]; exact ha
          rw [this] at h
          simp at h

theorem pyFloat_chars (s : List Char) (q : ℚ) (h : pyFloat? s = some q) :
    ∀ c ∈ s, allowedChar c = true := by
  intro c hc
  cases s with
  | nil => simp at hc
  | cons a t =>
    simp only [pyFloat?] at h
    by_cases h1 : a = '-'
    · subst h1
      simp only [beq_self_eq_true, if_true] at h
      rcases Option.map_eq_some'.mp h with ⟨q0, hq0, _⟩
      rcases List.mem_cons.mp hc with rfl | hct
      · simp [allowedChar]
      · exact pyFloatCore_chars t q0 hq0 c hct
    · rw [if_neg (by simpa using h1)] at h
      by_cases h2 : a = '+'
      · subst h2
        simp only [beq_self_eq_true, if_true] at h
        rcases List.mem_cons.mp hc with rfl | hct
        · simp [allowedChar]
        · exact pyFloatCore_chars t q h c hct
      · rw [if_neg (by simpa using h2)] at h
        exact pyFloatCore_chars (a :: t) q h c hc

theorem applyClear_getElem (c : Bool) (p : List Char) (st : TaskStates) (i : Nat) :
    (applyClear c p st)[i]? =
      (st[i]?).map (fun e => if c && hasPfx p e.1 then (e.1, false) else e) := by
  cases c with
  | false =>
    simp only [applyClear, if_false, Bool.false_and, Bool.false_eq_true]
    cases st[i]? <;> simp
  | true =>
    simp only [applyClear, if_true, clearPfx, List.getElem?_map, Bool.true_and]

theorem hasPfx_false_head (a b : Char) (p q k : List Char)
    (hab : a ≠ b) (h : hasPfx (a :: p) k = true) : hasPfx (b :: q) k = false := by
  cases k with
  | nil => simp [hasPfx] at h
  | cons c t =>
    simp only [hasPfx, Bool.and_eq_true, beq_iff_eq] at h
    simp only [hasPfx, Bool.and_eq_false_iff, beq_eq_false_iff_ne, ne_eq]
    left
    rw [← h.1]
    exact fun hba => hab hba.symm

theorem reconcile_frame (last now : DT) (st : TaskStates) (k : List Char) (v : Bool)
    (i : Nat) (hd : hasPfx dailyPfx k = false) (hw : hasPfx weeklyPfx k = false)
    (hm : hasPfx monthlyPfx k = false) (hi : st[i]? = some (k, v)) :
    (reconcile last now st)[i]? = some (k, v) := by
  simp only [reconcile, applyClear_getElem, hi, Option.map_some', hd, hw, hm,
    Bool.and_false, if_false, Bool.false_eq_true]

/-! ## Claim theorems -/

/-- Claim C2: for every snapshot with a present `lastUpdate` and every
`now`, reconciliation clears a Weekly-cadence completion record to
`false` exactly when the ISO-8601 week number of `now` differs from the
ISO week number of `lastUpdate` (week number only, not ISO year);
otherwise the record keeps its stored value. -/
theorem weekly_clear_iff (last now : DT) (st : TaskStates) (i : Nat)
    (k : List Char) (v : Bool)
    (hi : st[i]? = some (k, v)) (hk : hasPfx weeklyPfx k = true) :
    (reconcile last now st)[i]? =
      some (k, if isoWeekOf now != isoWeekOf last then false else v) := by
  have hd : hasPfx dailyPfx k = false :=
    hasPfx_false_head 'W' 'D' ['e', 'e', 'k', 'l', 'y', '_'] ['a', 'i', 'l', 'y', '_']
      k (by decide) hk
  have hm : hasPfx monthlyPfx k = false :=
    hasPfx_false_head 'W' 'M' ['e', 'e', 'k', 'l', 'y', '_']
      ['o', 'n', 't', 'h', 'l', 'y', '_'] k (by decide) hk
  cases hw : (isoWeekOf now != isoWeekOf last) <;>
    simp [reconcile, applyClear_getElem, hi, hd, hk, hm, hw]

/-- Witness for C2 at the claim's own edge case: `lastUpdate`
2024-12-30 and `now` 2025-01-02 are both ISO week 1, so the weekly
record survives even though a year boundary was crossed. -/
theorem weekly_clear_iff_witness :
    ([("Weekly_swim".data, true)] : TaskStates)[0]? = some ("Weekly_swim".data, true) ∧
    hasPfx weeklyPfx "Weekly_swim".data = true ∧
    (reconcile ⟨2024, 12, 30, 0, 0, 0⟩ ⟨2025, 1, 2, 0, 0, 0⟩
        [("Weekly_swim".data, true)])[0]? = some ("Weekly_swim".data, true) := by
  refine ⟨rfl, by decide, ?_⟩
  have h := weekly_clear_iff ⟨2024, 12, 30, 0, 0, 0⟩ ⟨2025, 1, 2, 0, 0, 0⟩
    [("Weekly_swim".data, true)] 0 "Weekly_swim".data true rfl (by decide)
  rw [h]
  decide

/-- Claim C5: reconciliation clears a Daily-cadence completion record to
`false` exactly when the calendar date of `now` is strictly later than
the calendar date of `lastUpdate`; otherwise the record keeps its stored
value. -/
theorem daily_clear_iff (last now : DT) (st : TaskStates) (i : Nat)
    (k : List Char) (v : Bool)
    (hi : st[i]? = some (k, v)) (hk : hasPfx dailyPfx k = true) :
    (reconcile last now st)[i]? =
      some (k, if dateLt last now then false else v) := by
  have hw : hasPfx weeklyPfx k = false :=
    hasPfx_false_head 'D' 'W' ['a', 'i', 'l', 'y', '_'] ['e', 'e', 'k', 'l', 'y', '_']
      k (by decide) hk
  have hm : hasPfx monthlyPfx k = false :=
    hasPfx_false_head 'D' 'M' ['a', 'i', 'l', 'y', '_']
      ['o', 'n', 't', 'h', 'l', 'y', '_'] k (by decide) hk
  cases hc : dateLt last now <;>
    simp [reconcile, applyClear_getElem, hi, hw, hk, hm, hc]

/-- The scenario state of claim C5: one record per cadence, all
completed. -/
def dwmStates : TaskStates :=
  [("Daily_read".data, true), ("Weekly_swim".data, true), ("Monthly_tidy".data, true)]

/-- Witness for C5 at the claim's scenario: `lastUpdate`
2024-01-01T10:00:00, `now` 2024-01-02T09:00:00 — the daily record
clears, and (same ISO week, same month) the weekly and monthly records
remain untouched. -/
theorem daily_clear_iff_witness :
    dwmStates[0]? = some ("Daily_read".data, true) ∧
    hasPfx dailyPfx "Daily_read".data = true ∧
    (reconcile ⟨2024, 1, 1, 10, 0, 0⟩ ⟨2024, 1, 2, 9, 0, 0⟩ dwmStates)[0]? =
      some ("Daily_read".data, false) ∧
    reconcile ⟨2024, 1, 1, 10, 0, 0⟩ ⟨2024, 1, 2, 9, 0, 0⟩ dwmStates =
      [("Daily_read".data, false), ("Weekly_swim".data, true), ("Monthly_tidy".data, true)] := by
  refine ⟨rfl, by decide, ?_, by decide⟩
  have h := daily_clear_iff ⟨2024, 1, 1, 10, 0, 0⟩ ⟨2024, 1, 2, 9, 0, 0⟩ dwmStates 0
    "Daily_read".data true rfl (by decide)
  rw [h]
  decide

/-- Claim C9: the reset passes only ever modify records whose key starts
with the case-sensitive prefix `Daily_`, `Weekly_` or `Monthly_`; a task
whose catalog cadence is the uncapitalised `daily` is displayed in the
daily group (grouping is case-insensitive) yet its completion record —
keyed by the raw cadence string, line 124 — is left unchanged by every
reconciliation. -/
theorem lowercase_cadence_never_cleared :
    (∀ (last now : DT) (st : TaskStates) (k : List Char) (v : Bool) (i : Nat),
        hasPfx dailyPfx k = false → hasPfx weeklyPfx k = false →
        hasPfx monthlyPfx k = false → st[i]? = some (k, v) →
        (reconcile last now st)[i]? = some (k, v)) ∧
    (∀ (t : TaskRec) (last now : DT) (st : TaskStates) (v : Bool) (i : Nat),
        t.cadence = ['d', 'a', 'i', 'l', 'y'] →
        (∀ cat : List TaskRec, t ∈ cat → t ∈ dailyGroup cat) ∧
        (st[i]? = some (taskKey t, v) →
          (reconcile last now st)[i]? = some (taskKey t, v))) := by
  constructor
  · intro last now st k v i hd hw hm hi
    exact reconcile_frame last now st k v i hd hw hm hi
  · intro t last now st v i hcad
    have hk1 : hasPfx ['d'] (taskKey t) = true := by
      rw [taskKey, hcad]; simp [hasPfx]
    have hd : hasPfx dailyPfx (taskKey t) = false :=
      hasPfx_false_head 'd' 'D' [] ['a', 'i', 'l', 'y', '_'] _ (by decide) hk1
    have hw : hasPfx weeklyPfx (taskKey t) = false :=
      hasPfx_false_head 'd' 'W' [] ['e', 'e', 'k', 'l', 'y', '_'] _ (by decide) hk1
    have hm : hasPfx monthlyPfx (taskKey t) = false :=
      hasPfx_false_head 'd' 'M' [] ['o', 'n', 't', 'h', 'l', 'y', '_'] _ (by decide) hk1
    constructor
    · intro cat hmem
      refine List.mem_filter.mpr ⟨hmem, ?_⟩
      rw [hcad]
      decide
    · intro hi
      exact reconcile_frame last now st (taskKey t) v i hd hw hm hi

/-- A catalog row whose cadence field is the uncapitalised `daily`. -/
def lcTask : TaskRec :=
  { task := "wash".data, cadence := "daily".data, value := "£1".data,
    reward := 1, isMustDo := false }

/-- Witness for C9: the `daily`-cadence task is in the displayed daily
group, yet a reconciliation whose daily, weekly and monthly conditions
all fire (2024-01-15 → 2024-02-20) leaves its completed record intact. -/
theorem lowercase_cadence_never_cleared_witness :
    lcTask.cadence = ['d', 'a', 'i', 'l', 'y'] ∧
    lcTask ∈ dailyGroup [lcTask] ∧
    (reconcile ⟨2024, 1, 15, 0, 0, 0⟩ ⟨2024, 2, 20, 0, 0, 0⟩
        [(taskKey lcTask, true)])[0]? = some (taskKey lcTask, true) := by
  have h := (lowercase_cadence_never_cleared).2 lcTask ⟨2024, 1, 15, 0, 0, 0⟩
    ⟨2024, 2, 20, 0, 0, 0⟩ [(taskKey lcTask, true)] true 0 rfl
  exact ⟨rfl, h.1 [lcTask] (List.mem_cons_self _ _), h.2 rfl⟩

/-- Counterexample to claim C1 as stated: for `"£5 Must do"` the must-do
flag is indeed set, but the reward is not 0 — the value parse raises
(line 95 checks only the first character), so the catalog load aborts. -/
theorem mustDo_currency_cex :
    isMustDoOf "£5 Must do".data = true ∧
    rewardOf "£5 Must do".data = none ∧
    rewardOf "£5 Must do".data ≠ some 0 := by decide

/-- Claim C1 (amended): for every raw value containing `"Must do"`, the
must-do flag is `true`; the reward is 0 only when the string does not
begin with a currency symbol — when it does, the reward parse fails
(and with it the whole catalog load). -/
theorem mustDo_parse_amended (s : List Char) (h : containsSub mustDoStr s = true) :
    isMustDoOf s = true ∧
    (∀ c rest, s = c :: rest → currencySyms.contains c = false → rewardOf s = some 0) ∧
    (∀ c rest, s = c :: rest → currencySyms.contains c = true → rewardOf s = none) := by
  have hM : 'M' ∈ s := containsSub_mem mustDoStr s h 'M' (by decide)
  refine ⟨h, ?_, ?_⟩
  · rintro c rest rfl hc
    have hc2 : c ∉ currencySyms := by simpa using hc
    simp [rewardOf, hc2]
  · rintro c rest rfl hc
    simp only [rewardOf, hc, if_true]
    cases hp : pyFloat? (stripSyms (c :: rest)) with
    | none => rfl
    | some q =>
      exfalso
      have hMs : 'M' ∈ stripSyms (c :: rest) := List.mem_filter.mpr ⟨hM, by decide⟩
      exact absurd (pyFloat_chars _ q hp 'M' hMs) (by decide)

/-- Witness for amended C1 on `"Must do - no pay"`: must-do, zero
reward. -/
theorem mustDo_parse_amended_witness :
    containsSub mustDoStr "Must do - no pay".data = true ∧
    isMustDoOf "Must do - no pay".data = true ∧
    rewardOf "Must do - no pay".data = some 0 := by
  have h := mustDo_parse_amended "Must do - no pay".data (by decide)
  exact ⟨by decide, h.1, h.2.1 'M' "ust do - no pay".data rfl (by decide)⟩

/-- Claim C6: a raw value whose first character is a currency glyph and
whose remainder, after stripping currency glyphs and commas, parses as a
decimal number gets exactly that number as reward and is not
must-do. -/
theorem currency_parse_exact (c : Char) (rest : List Char) (q : ℚ)
    (hc : currencySyms.contains c = true)
    (hq : pyFloat? (stripSyms (c :: rest)) = some q) :
    rewardOf (c :: rest) = some q ∧ isMustDoOf (c :: rest) = false := by
  constructor
  · have hc2 : c ∈ currencySyms := by simpa using hc
    simp [rewardOf, hc2, hq]
  · cases hm : isMustDoOf (c :: rest) with
    | false => rfl
    | true =>
      exfalso
      have hM : 'M' ∈ (c :: rest) := containsSub_mem mustDoStr _ hm 'M' (by decide)
      have hMs : 'M' ∈ stripSyms (c :: rest) := List.mem_filter.mpr ⟨hM, by decide⟩
      exact absurd (pyFloat_chars _ q hq 'M' hMs) (by decide)

/-- Witness for C6 on the claim's examples: `"£3.50"` → 3.50 and
`"£1,000"` → 1000. -/
theorem currency_parse_exact_witness :
    currencySyms.contains '£' = true ∧
    pyFloat? (stripSyms "£3.50".data) = some (mkRat 7 2) ∧
    rewardOf "£3.50".data = some (mkRat 7 2) ∧
    isMustDoOf "£3.50".data = false ∧
    rewardOf "£1,000".data = some (mkRat 1000 1) := by
  have h1 := currency_parse_exact '£' "3.50".data (mkRat 7 2) (by decide) (by decide)
  have h2 := currency_parse_exact '£' "1,000".data (mkRat 1000 1) (by decide) (by decide)
  exact ⟨by decide, by decide, h1.1, h1.2, h2.1⟩

/-- Counterexample to claim C7 as stated: on the empty string (no
currency prefix, no `"Must do"`) the parse does not return 0 — the
first-character subscript on line 95 raises `IndexError`. -/
theorem empty_value_cex : rewardOf [] = none ∧ rewardOf [] ≠ some 0 := by decide

/-- Claim C7 (amended): for every NONEMPTY raw value with neither a
leading currency symbol nor a `"Must do"` marker, the parse returns
reward 0 and must-do `false` without error; the empty string instead
raises. -/
theorem inert_value_amended (c : Char) (rest : List Char)
    (hc : currencySyms.contains c = false)
    (hm : containsSub mustDoStr (c :: rest) = false) :
    rewardOf (c :: rest) = some 0 ∧ isMustDoOf (c :: rest) = false :=
  ⟨by have hc2 : c ∉ currencySyms := by simpa using hc
      simp [rewardOf, hc2], hm⟩

/-- Witness for amended C7 on `"n/a"`. -/
theorem inert_value_amended_witness :
    currencySyms.contains 'n' = false ∧
    containsSub mustDoStr "n/a".data = false ∧
    rewardOf "n/a".data = some 0 ∧ isMustDoOf "n/a".data = false := by
  have h := inert_value_amended 'n' "/a".data (by decide) (by decide)
  exact ⟨by decide, by decide, h.1, h.2⟩

/-- A two-row catalog whose first row has the malformed value `"£abc"`. -/
def badCatalog : List Row :=
  [{ task := "Bad task".data, cadence := "Daily".data, value := "£abc".data },
   { task := "Good task".data, cadence := "Daily".data, value := "£5".data }]

/-- Counterexample to claim C3 as stated: with the malformed row present
the whole load returns `None` — the surviving rows are NOT loaded — yet
without that row the load succeeds. -/
theorem row_failure_cex :
    loadData badCatalog = none ∧ (loadData (badCatalog.drop 1)).isSome = true := by
  decide

/-- Claim C3 (amended): a row-level value failure aborts the whole
catalog load — `load_data` catches the exception on line 98 and returns
`None`; the failing row's economics are not zeroed individually. -/
theorem row_failure_aborts_load (rows : List Row) (r : Row)
    (hr : r ∈ rows) (hfail : rewardOf r.value = none) :
    loadData rows = none := by
  induction rows with
  | nil => simp at hr
  | cons x xs ih =>
    rcases List.mem_cons.mp hr with rfl | hr2
    · simp [loadData, hfail]
    · have h2 := ih hr2
      cases hx : rewardOf x.value <;> simp [loadData, hx, h2]

/-- A one-row catalog with a malformed value. -/
def badRow : Row :=
  { task := "Wash up".data, cadence := "Daily".data, value := "£x".data }

/-- Witness for amended C3. -/
theorem row_failure_aborts_load_witness :
    badRow ∈ [badRow] ∧ rewardOf badRow.value = none ∧ loadData [badRow] = none := by
  have h := row_failure_aborts_load [badRow] badRow (List.mem_cons_self _ _) (by decide)
  exact ⟨List.mem_cons_self _ _, by decide, h⟩

/-- Counterexample to claim C4 as stated: on structurally invalid
persisted content, `load_state` does not degrade to "no prior state" —
the `json.load` exception propagates uncaught to the caller. -/
theorem store_malformed_cex :
    loadState Stored.malformed ⟨2024, 1, 1, 0, 0, 0⟩ = Except.error () := rfl

/-- Claim C4 (amended): a missing backing store yields the empty state
without failing; readable, well-formed content always yields a state;
but malformed content raises an uncaught exception — `load_state` has no
error handling at all. -/
theorem store_load_amended (now : DT) :
    loadState Stored.missing now = Except.ok [] ∧
    loadState Stored.malformed now = Except.error () ∧
    (∀ p : Persisted, ∃ ts, loadState (Stored.valid p) now = Except.ok ts) := by
  refine ⟨rfl, rfl, ?_⟩
  intro p
  obtain ⟨lu, ts⟩ := p
  cases lu with
  | none => exact ⟨ts, rfl⟩
  | some last => exact ⟨reconcile last now ts, rfl⟩

/-- Claim C8: a catalog row is in a displayed group exactly when its
lower-cased cadence equals the group name, so rows whose cadence matches
none of `daily`/`weekly`/`monthly` case-insensitively appear in no
group, and no error is raised. -/
theorem cadence_grouping (cat : List TaskRec) (t : TaskRec) (ht : t ∈ cat) :
    (t ∈ dailyGroup cat ↔ lowerStr t.cadence = ['d', 'a', 'i', 'l', 'y']) ∧
    (t ∈ weeklyGroup cat ↔ lowerStr t.cadence = ['w', 'e', 'e', 'k', 'l', 'y']) ∧
    (t ∈ monthlyGroup cat ↔ lowerStr t.cadence = ['m', 'o', 'n', 't', 'h', 'l', 'y']) := by
  refine ⟨?_, ?_, ?_⟩ <;>
    simp [dailyGroup, weeklyGroup, monthlyGroup, List.mem_filter, ht]

/-- A row with upper-cased cadence `DAILY`. -/
def upTask : TaskRec :=
  { task := "Read".data, cadence := "DAILY".data, value := "£1".data,
    reward := 1, isMustDo := false }

/-- A row with the unrecognised cadence `Fortnightly`. -/
def oddTask : TaskRec :=
  { task := "Trip".data, cadence := "Fortnightly".data, value := "£1".data,
    reward := 1, isMustDo := false }

/-- The two-row catalog exercising C8. -/
def mixedCat : List TaskRec := [upTask, oddTask]

/-- Witness for C8: `DAILY` lands in the daily group (case-insensitive
match); `Fortnightly` appears in none of the three groups. -/
theorem cadence_grouping_witness :
    upTask ∈ mixedCat ∧ upTask ∈ dailyGroup mixedCat ∧
    oddTask ∉ dailyGroup mixedCat ∧ oddTask ∉ weeklyGroup mixedCat ∧
    oddTask ∉ monthlyGroup mixedCat := by
  have h1 := cadence_grouping mixedCat upTask (by decide)
  have h2 := cadence_grouping mixedCat oddTask (by decide)
  refine ⟨by decide, h1.1.mpr (by decide), ?_, ?_, ?_⟩
  · intro hmem; exact absurd (h2.1.mp hmem) (by decide)
  · intro hmem; exact absurd (h2.2.1.mp hmem) (by decide)
  · intro hmem; exact absurd (h2.2.2.mp hmem) (by decide)

/-- A persisted mapping holding a completed key (`Daily_gone`) that no
current catalog row produces. -/
def staleStates : TaskStates := [("Daily_wash".data, true), ("Daily_gone".data, true)]

/-- A one-row catalog whose single key is `Daily_wash`. -/
def smallCatalog : List TaskRec :=
  [{ task := "wash".data, cadence := "Daily".data, value := "£1".data,
     reward := 1, isMustDo := false }]

/-- Claim C10: the completed count tallies `True` flags over the whole
persisted mapping while the total counts catalog rows, so a stale
completed key makes the completed count exceed the number of checked
catalog tasks and pushes the progress ratio above 1. -/
theorem stale_key_progress :
    completedCount staleStates = 2 ∧
    totalCount smallCatalog = 1 ∧
    checkedCatalogCount smallCatalog staleStates = 1 ∧
    checkedCatalogCount smallCatalog staleStates < completedCount staleStates ∧
    (1 : ℚ) < (completedCount staleStates : ℚ) / (totalCount smallCatalog : ℚ) := by
  have e1 : completedCount staleStates = 2 := by decide
  have e2 : totalCount smallCatalog = 1 := by decide
  refine ⟨e1, e2, by decide, by decide, ?_⟩
  rw [e1, e2]
  norm_num

end KidsTodo
